import Mathlib

/-!
Verification development for the ESP32 I2C master driver
(`src/drivers/i2c/i2c_esp32.c`).

The definitions below are a shallow embedding of the driver's transfer
engine: the hardware command words it queues, the per-chunk segmentation
of read and write messages, the transmit/wait/error logic, the interrupt
handler's status mapping, the transaction-level validation of message
lists, and the clock-source selection used by `i2c_esp32_configure`.

Modelling conventions:
* Hardware accesses (`i2c_hal_*`) are recorded as trace data (queued
  command words, FIFO byte counts, coarse events) rather than performed.
* `msg->len` is a `uint32_t` in C; every operation on it here is a
  guarded subtraction of at most its current value, so `Nat` models it
  exactly.  `rd_filled`/`wr_filled` are `uint8_t`; with the hardware
  FIFO depth `SOC_I2C_FIFO_LEN = 32` every value they take stays below
  256, so `Nat` models them exactly as well.  The FIFO depth is kept as
  a parameter `fifo` of the segment drivers.
* The result of each call to `i2c_esp32_transmit` (which blocks on a
  semaphore the ISR releases) is an external input, modelled by an
  oracle `tr : Nat → Int` giving the result of the i-th transmit of a
  segment.  The driver returns early with the first negative result, so
  a segment driver returns success exactly when no consulted transmit
  result is negative.
-/

/-- Zephyr minimal-libc errno value used by `i2c_esp32_transfer` for an
invalid message sequence. -/
def EINVAL : Int := 22

/-- Zephyr minimal-libc errno value used by `i2c_esp32_transmit` for a
NACK (ack failure). -/
def EFAULT : Int := 14

/-- Zephyr minimal-libc errno value used by `i2c_esp32_transmit` on
timeout. -/
def ETIMEDOUT : Int := 116

/-- Zephyr minimal-libc errno value used by `i2c_esp32_configure` for
unsupported modes and zero bitrate. -/
def ENOTSUP : Int := 134

/-- Transfer timeout passed to `k_sem_take` in `i2c_esp32_transmit`
(`I2C_TRANSFER_TIMEOUT_MSEC`, milliseconds). -/
def I2C_TRANSFER_TIMEOUT_MSEC : Nat := 500

/-- Opcodes of the hardware command queue entries (`i2c_ll.h`
`I2C_LL_CMD_*`). -/
inductive OpCode where
  | RSTART
  | WRITE
  | READ
  | STOP
  | END
deriving DecidableEq, Repr

/-- One hardware command-queue word (`i2c_hw_cmd_t`).  Fields that a C
designated initializer omits are zero, hence the defaults. -/
structure HwCmd where
  op_code : OpCode
  ack_en : Bool := false
  ack_val : Nat := 0
  byte_num : Nat := 0
deriving DecidableEq, Repr

/-- Driver status word (`enum i2c_status_t`). -/
inductive I2cStatus where
  | READ
  | WRITE
  | IDLE
  | ACK_ERROR
  | DONE
  | TIMEOUT
deriving DecidableEq, Repr

/-- Event classification reported by the HAL interrupt handlers
(`i2c_intr_event_t`). -/
inductive I2cIntrEvent where
  | ERR
  | ARBIT_LOST
  | NACK
  | TOUT
  | END_DET
  | TRANS_DONE
  | RXFIFO_FULL
  | TXFIFO_EMPTY
deriving DecidableEq, Repr

/-- Result of the `k_sem_take(&data->cmd_sem, K_MSEC(500))` call inside
`i2c_esp32_transmit`: either the ISR released the semaphore within the
deadline, or the take timed out. -/
inductive SemTakeRes where
  | ok
  | timeout
deriving DecidableEq, Repr

/-- Transmit oracle under which every transmit completes successfully. -/
def trOk : Nat → Int := fun _ => 0

/-- Clock-source frequency limit `I2C_CLK_LIMIT_APB` (APB / 20). -/
def I2C_CLK_LIMIT_APB : Nat := 80 * 1000 * 1000 / 20

/-- Clock-source frequency limit `I2C_CLK_LIMIT_XTAL` (XTAL / 20). -/
def I2C_CLK_LIMIT_XTAL : Nat := 40 * 1000 * 1000 / 20

/-- Clock-source frequency limit `I2C_CLK_LIMIT_RTC` (RTC / 20). -/
def I2C_CLK_LIMIT_RTC : Nat := 20 * 1000 * 1000 / 20

/-- Clock-source frequency limit `I2C_CLK_LIMIT_REF_TICK`
(REF_TICK / 20). -/
def I2C_CLK_LIMIT_REF_TICK : Nat := 1 * 1000 * 1000 / 20

/-- The `i2c_clk_alloc` table: entry 0 is the unused
`I2C_SCLK_DEFAULT` slot, then one limit per supported clock source in
`i2c_sclk_t` order (APB, XTAL, RTC, REF_TICK), every
`SOC_I2C_SUPPORT_*` source compiled in.  The limits are strictly
decreasing: the table runs from the fastest source to the slowest. -/
def i2c_clk_alloc : List Nat :=
  [0, I2C_CLK_LIMIT_APB, I2C_CLK_LIMIT_XTAL, I2C_CLK_LIMIT_RTC, I2C_CLK_LIMIT_REF_TICK]

/-- Index value `I2C_SCLK_MAX`, used by `i2c_get_clk_src` as the
invalid-selection flag. -/
def I2C_SCLK_MAX : Nat := i2c_clk_alloc.length

/-- Embedding of `i2c_get_clk_src`: scan the clock sources in
`i2c_sclk_t` order starting at `I2C_SCLK_DEFAULT + 1` and return the
first whose limit covers `clk_freq`, or `I2C_SCLK_MAX` when none does. -/
def i2c_get_clk_src (clk_freq : Nat) : Nat :=
  match (List.range' 1 (I2C_SCLK_MAX - 1)).find?
      (fun c => decide (clk_freq ≤ i2c_clk_alloc.getD c 0)) with
  | some c => c
  | none => I2C_SCLK_MAX

/-- Embedding of `i2c_esp32_configure`; `master` is
`dev_config & I2C_MODE_MASTER`.  Returns the C return value together
with the clock source passed to `i2c_hal_set_bus_timing` (`none` when
configuration returned before reaching that call). -/
def i2c_esp32_configure (master : Bool) (bitrate : Nat) : Int × Option Nat :=
  if ¬ master then (-ENOTSUP, none)
  else if bitrate = 0 then (-ENOTSUP, none)
  else (0, some (i2c_get_clk_src bitrate))

/-- Embedding of `i2c_esp32_transmit`.  `semRes` is the outcome of the
bounded semaphore take, `status` the driver status word the ISR left
behind.  Returns the C return value and whether `i2c_hw_fsm_reset` was
invoked. -/
def i2c_esp32_transmit (semRes : SemTakeRes) (status : I2cStatus) : Int × Bool :=
  match semRes with
  | .timeout => (-ETIMEDOUT, true)
  | .ok =>
    if status = .TIMEOUT then (-ETIMEDOUT, true)
    else if status = .ACK_ERROR then (-EFAULT, false)
    else (0, false)

/-- Embedding of `i2c_esp32_isr`.  `hwEvt` is the classification the
HAL tx/rx event handler would report; when the status word is neither
`WRITE` nor `READ` no handler runs and the local event stays
`I2C_INTR_EVENT_ERR`.  Returns the new status word and the number of
`k_sem_give(&data->cmd_sem)` calls performed. -/
def i2c_esp32_isr (status : I2cStatus) (hwEvt : I2cIntrEvent) : I2cStatus × Nat :=
  let evt := if status = .WRITE then hwEvt else if status = .READ then hwEvt else .ERR
  let status' :=
    if evt = .NACK then I2cStatus.ACK_ERROR
    else if evt = .TOUT then I2cStatus.TIMEOUT
    else if evt = .ARBIT_LOST then I2cStatus.TIMEOUT
    else if evt = .TRANS_DONE then I2cStatus.DONE
    else status
  (status', 1)

/-- Embedding of `i2c_esp32_write_addr`: the RESTART command followed
by an ACK-checked WRITE command covering the address byte(s); the
address bytes themselves go to the tx FIFO. -/
def i2c_esp32_write_addr (tenBit : Bool) : List HwCmd :=
  [{ op_code := .RSTART },
   { op_code := .WRITE, ack_en := true, byte_num := if tenBit then 2 else 1 }]

/-- One iteration of the `while (msg->len)` body of
`i2c_esp32_read_msg`, up to and including the command-queue writes.
Returns the commands queued this iteration, the final `rd_filled`
(the count later passed to `i2c_hal_read_rxfifo`), and the new
`msg->len`.  `rd_filled` starts as
`(msg->len > SOC_I2C_FIFO_LEN) ? SOC_I2C_FIFO_LEN : (msg->len - 1)`;
when the remaining length reaches 1 the driver queues the dedicated
single-byte command with `ack_val = 1` (and `ack_en` left false),
zeroes `msg->len` and increments `rd_filled`; a STOP command is queued
whenever `msg->len` reached 0, and an END command always follows. -/
def readChunkCmds (fifo len : Nat) : List HwCmd × Nat × Nat :=
  let rd0 := if fifo < len then fifo else len - 1
  let len1 := len - rd0
  let baseCmds : List HwCmd :=
    if rd0 ≠ 0 then [{ op_code := .READ, ack_en := false, ack_val := 0, byte_num := rd0 }] else []
  if len1 = 1 then
    (baseCmds ++
      [{ op_code := .READ, byte_num := 1, ack_val := 1 },
       { op_code := .STOP, byte_num := 0, ack_val := 0, ack_en := false },
       { op_code := .END }],
     rd0 + 1, 0)
  else if len1 = 0 then
    (baseCmds ++
      [{ op_code := .STOP, byte_num := 0, ack_val := 0, ack_en := false },
       { op_code := .END }],
     rd0, 0)
  else
    (baseCmds ++ [{ op_code := .END }], rd0, len1)

/-- The `while (msg->len)` loop of `i2c_esp32_read_msg`.  `fuel` bounds
the number of iterations (every theorem below instantiates it with a
value no smaller than the iteration count, so the bound is never hit);
`tr` gives the result of each `i2c_esp32_transmit` call.  Returns the
flattened queued commands, the `rd_filled` counts actually passed to
`i2c_hal_read_rxfifo` (one per successful transmit), the return value,
the final `msg->len` and the final advance of `msg->buf`. -/
def readLoopAux (fifo : Nat) (tr : Nat → Int) :
    Nat → Nat → Nat → Nat → List HwCmd × List Nat × Int × Nat × Nat
  | 0, len, bo, _ => ([], [], 0, len, bo)
  | fuel + 1, len, bo, i =>
    if len = 0 then ([], [], 0, 0, bo)
    else
      let (cmds, rd, len') := readChunkCmds fifo len
      if tr i < 0 then (cmds, [], tr i, len', bo)
      else
        let (cs, rds, ret, lf, bf) := readLoopAux fifo tr fuel len' (bo + rd) (i + 1)
        (cmds ++ cs, rd :: rds, ret, lf, bf)

/-- Observable outcome of one segment driver call (`i2c_esp32_read_msg`
or `i2c_esp32_write_msg`): all queued command words in order, the
per-transmit message-data byte counts moved through the FIFO
(`rd_filled` drains of the rx FIFO for reads, `wr_filled` fills of the
tx FIFO for writes; address bytes queued by `i2c_esp32_write_addr` are
not message data and are not counted), the return value, the final
`msg->len`, and how far `msg->buf` advanced. -/
structure SegRun where
  cmds : List HwCmd
  xfers : List Nat
  ret : Int
  msgLen : Nat
  bufOff : Nat
deriving DecidableEq, Repr

/-- Message flag bits consulted by the driver (`I2C_MSG_READ`,
`I2C_MSG_STOP`, `I2C_MSG_RESTART`).  The C bitfield operations each
touch exactly one of these bits, so a record of booleans models the
flags word exactly. -/
structure MsgFlags where
  read : Bool
  stop : Bool
  restart : Bool
deriving DecidableEq, Repr

/-- Embedding of `i2c_esp32_read_msg`.  Of `msg->flags` the read path
consults only `I2C_MSG_RESTART` (to queue the restart/address
commands); in particular `I2C_MSG_STOP` is never read. -/
def i2c_esp32_read_msg (fifo : Nat) (tenBit : Bool) (flags : MsgFlags) (len : Nat)
    (tr : Nat → Int) : SegRun :=
  let addrCmds := if flags.restart then i2c_esp32_write_addr tenBit else []
  let (cs, rds, ret, lf, bo) := readLoopAux fifo tr len len 0 0
  ⟨addrCmds ++ cs, rds, ret, lf, bo⟩

/-- One iteration of the `for (;;)` body of `i2c_esp32_write_msg`, up
to and including the command-queue writes.  Returns the commands queued
this iteration, `wr_filled`, and the new `msg->len`. -/
def writeChunkCmds (fifo len : Nat) (stop : Bool) : List HwCmd × Nat × Nat :=
  let wr := if fifo < len then fifo else len
  let len' := len - wr
  let c1 : List HwCmd :=
    if 0 < wr then [{ op_code := .WRITE, ack_en := true, byte_num := wr }] else []
  let c2 : List HwCmd :=
    if len' = 0 ∧ stop then [{ op_code := .STOP, ack_en := false, byte_num := 0 }]
    else [{ op_code := .END }]
  (c1 ++ c2, wr, len')

/-- The `for (;;)` loop of `i2c_esp32_write_msg`.  The body always runs
at least once (a zero-length message still queues its STOP/END command
and transmits); the loop breaks when `msg->len` reaches 0.  Returns the
flattened queued commands, the `wr_filled` counts pushed to the tx
FIFO, the return value, the final `msg->len` and the final advance of
`msg->buf` (the write path advances `msg->buf` before transmitting). -/
def writeLoopAux (fifo : Nat) (stop : Bool) (tr : Nat → Int) :
    Nat → Nat → Nat → Nat → List HwCmd × List Nat × Int × Nat × Nat
  | 0, len, bo, _ => ([], [], 0, len, bo)
  | fuel + 1, len, bo, i =>
    let (cmds, wr, len') := writeChunkCmds fifo len stop
    let pushes : List Nat := if 0 < wr then [wr] else []
    if tr i < 0 then (cmds, pushes, tr i, len', bo + wr)
    else if len' = 0 then (cmds, pushes, 0, 0, bo + wr)
    else
      let (cs, ps, ret, lf, bf) := writeLoopAux fifo stop tr fuel len' (bo + wr) (i + 1)
      (cmds ++ cs, pushes ++ ps, ret, lf, bf)

/-- Embedding of `i2c_esp32_write_msg`.  The write path consults
`I2C_MSG_RESTART` for the address commands and `I2C_MSG_STOP` to choose
between a STOP and an END command once the message is drained. -/
def i2c_esp32_write_msg (fifo : Nat) (tenBit : Bool) (flags : MsgFlags) (len : Nat)
    (tr : Nat → Int) : SegRun :=
  let addrCmds := if flags.restart then i2c_esp32_write_addr tenBit else []
  let (cs, ps, ret, lf, bo) := writeLoopAux fifo flags.stop tr (len + 1) len 0 0
  ⟨addrCmds ++ cs, ps, ret, lf, bo⟩

/-- Set `I2C_MSG_RESTART` on a flags word (`flags |= I2C_MSG_RESTART`). -/
def setRestart (f : MsgFlags) : MsgFlags := { f with restart := true }

/-- Set `I2C_MSG_STOP` on a flags word (`flags |= I2C_MSG_STOP`). -/
def setStop (f : MsgFlags) : MsgFlags := { f with stop := true }

/-- The validation loop of `i2c_esp32_transfer` (`for (int k = 1; k <=
num_msgs; k++)`), operating on the per-message flag words.  For each
adjacent pair the loop first rejects a direction change whose second
message lacks `I2C_MSG_RESTART`, then rejects `I2C_MSG_STOP` on the
first of the pair; it breaks at the first violation, leaving the rest
of the list untouched.  On the last message (`k == num_msgs`) it sets
`I2C_MSG_STOP`.  Returns `ret` and the flag list as the loop left it. -/
def i2c_esp32_validate : List MsgFlags → Int × List MsgFlags
  | [] => (0, [])
  | [f] => (0, [setStop f])
  | f :: g :: rest =>
    if f.read ≠ g.read ∧ g.restart = false then (-EINVAL, f :: g :: rest)
    else if f.stop then (-EINVAL, f :: g :: rest)
    else
      let (r, rest') := i2c_esp32_validate (g :: rest)
      (r, f :: rest')

/-- Restatement of the validation rules of spec section 3, used as the
hypothesis of the sequence-error claims: some message other than the
last carries STOP, or some direction change lacks RESTART on the
following message. -/
def violatesSeqRules : List MsgFlags → Bool
  | [] => false
  | [_] => false
  | f :: g :: rest =>
    (decide (f.read ≠ g.read) && !g.restart) || f.stop || violatesSeqRules (g :: rest)

/-- Coarse trace events of `i2c_esp32_transfer`: taking/giving the
transaction semaphore, the hardware-touching steps before each segment
(`i2c_hw_fsm_reset`, `i2c_esp32_reset_fifo`, interrupt disable+clear),
and the dispatch of one message to a segment driver. -/
inductive XferEvent where
  | lockTake
  | lockGive
  | fsmReset
  | fifoReset
  | intrClear
  | segRun (isRead : Bool) (idx : Nat)
deriving DecidableEq, Repr

/-- Result of `i2c_esp32_transfer`: the return value, the caller's
per-message flag words after the call, and the event trace. -/
structure XferResult where
  ret : Int
  msgs : List MsgFlags
  events : List XferEvent
deriving DecidableEq, Repr

/-- The per-message loop of `i2c_esp32_transfer` after validation:
before each message, an FSM reset when the previous segment timed out
or the bus reads busy (an external condition, oracle `needReset`), then
the unconditional FIFO reset and interrupt disable+clear, then the
dispatch to the read or write segment driver whose result is oracle
`segRet`; the loop stops at the first negative segment result. -/
def xferSegs (segRet : Nat → Int) (needReset : Nat → Bool) :
    List MsgFlags → Nat → Int × List XferEvent
  | [], _ => (0, [])
  | f :: rest, i =>
    let evs := (if needReset i then [XferEvent.fsmReset] else []) ++
      [XferEvent.fifoReset, XferEvent.intrClear, XferEvent.segRun f.read i]
    if segRet i < 0 then (segRet i, evs)
    else
      let (r, evs') := xferSegs segRet needReset rest (i + 1)
      (r, evs ++ evs')

/-- Embedding of `i2c_esp32_transfer`.  An empty list returns 0 at
once.  Otherwise the driver sets `I2C_MSG_RESTART` on the first message
(before validating), runs the validation loop, and returns its error
without taking the lock or touching hardware if it failed; on success
it takes the transaction semaphore, runs every message through a
segment driver, and releases the semaphore. -/
def i2c_esp32_transfer (segRet : Nat → Int) (needReset : Nat → Bool) :
    List MsgFlags → XferResult
  | [] => ⟨0, [], []⟩
  | f :: rest =>
    let (r, msgs') := i2c_esp32_validate (setRestart f :: rest)
    if r < 0 then ⟨r, msgs', []⟩
    else
      let (r2, evs) := xferSegs segRet needReset msgs' 0
      ⟨r2, msgs', XferEvent.lockTake :: (evs ++ [XferEvent.lockGive])⟩

/-- Segment-result oracle with every segment succeeding. -/
def segOk : Nat → Int := fun _ => 0

/-- Reset oracle reporting the bus never busy and no prior timeout. -/
def noReset : Nat → Bool := fun _ => false

/-- STOP command word queued by the segment drivers. -/
def stopCmd : HwCmd := { op_code := .STOP, ack_en := false, ack_val := 0, byte_num := 0 }

/-- END command word (`hw_end_cmd`). -/
def endCmd : HwCmd := { op_code := .END }

/-- The dedicated final-byte read command: one byte, `ack_en` false,
`ack_val` 1 (master NACKs the byte). -/
def nackReadCmd : HwCmd := { op_code := .READ, ack_en := false, ack_val := 1, byte_num := 1 }

/-- Bulk read command of `n` bytes (`ack_en` false, `ack_val` 0: the
master ACKs each byte). -/
def bulkReadCmd (n : Nat) : HwCmd :=
  { op_code := .READ, ack_en := false, ack_val := 0, byte_num := n }

/-- Write command of `n` data bytes requiring slave ACK. -/
def wrCmd (n : Nat) : HwCmd := { op_code := .WRITE, ack_en := true, byte_num := n }

/-- The READ commands of a queued command sequence, in order.  These
are exactly the commands that consume message bytes on the wire, one
byte per unit of `byte_num`, in queue order. -/
def readCmds (cs : List HwCmd) : List HwCmd :=
  cs.filter fun c => c.op_code == OpCode.READ

theorem readChunkCmds_one (fifo : Nat) (hf : 0 < fifo) :
    readChunkCmds fifo 1 = ([nackReadCmd, stopCmd, endCmd], 1, 0) := by
  have h1 : ¬ fifo < 1 := by omega
  simp [readChunkCmds, h1, nackReadCmd, stopCmd, endCmd]

theorem readChunkCmds_last (fifo len : Nat) (h2 : 2 ≤ len) (hle : len ≤ fifo + 1) :
    readChunkCmds fifo len = ([bulkReadCmd (len - 1), nackReadCmd, stopCmd, endCmd], len, 0) := by
  have hrd : (if fifo < len then fifo else len - 1) = len - 1 := by split <;> omega
  have hne : ¬ len - 1 = 0 := by omega
  have h1 : len - (len - 1) = 1 := by omega
  have h3 : len - 1 + 1 = len := by omega
  simp [readChunkCmds, hrd, hne, h1, h3, bulkReadCmd, nackReadCmd, stopCmd, endCmd]

theorem readChunkCmds_large (fifo len : Nat) (hf : 0 < fifo) (hlen : fifo + 2 ≤ len) :
    readChunkCmds fifo len = ([bulkReadCmd fifo, endCmd], fifo, len - fifo) := by
  have h1 : fifo < len := by omega
  have h2 : ¬ len - fifo = 1 := by omega
  have h3 : ¬ len - fifo = 0 := by omega
  have h4 : ¬ fifo = 0 := by omega
  simp [readChunkCmds, h1, h2, h3, h4, bulkReadCmd, endCmd]

theorem readLoopAux_len_zero (fifo : Nat) (tr : Nat → Int) (fuel bo i : Nat) :
    readLoopAux fifo tr fuel 0 bo i = ([], [], 0, 0, bo) := by
  cases fuel <;> simp [readLoopAux]

theorem beq_read_read : (OpCode.READ == OpCode.READ) = true := rfl

theorem beq_stop_read : (OpCode.STOP == OpCode.READ) = false := rfl

theorem beq_end_read : (OpCode.END == OpCode.READ) = false := rfl

theorem beq_rstart_read : (OpCode.RSTART == OpCode.READ) = false := rfl

theorem beq_write_read : (OpCode.WRITE == OpCode.READ) = false := rfl

theorem readLoopAux_ok (fifo : Nat) (tr : Nat → Int) (hf : 0 < fifo)
    (htr : ∀ j, ¬ tr j < 0) :
    ∀ fuel len bo i, 0 < len → len ≤ fuel →
      ∃ cs rds pre,
        readLoopAux fifo tr fuel len bo i = (cs, rds, 0, 0, bo + len) ∧
        rds.sum = len ∧
        readCmds cs = pre ++ [nackReadCmd] ∧
        (∀ c ∈ pre, c.ack_en = false ∧ c.ack_val = 0) ∧
        (pre.map HwCmd.byte_num).sum + 1 = len := by
  intro fuel
  induction fuel with
  | zero => intro len bo i h0 hle; omega
  | succ fuel ih =>
    intro len bo i h0 hle
    have hlz : ¬ len = 0 := by omega
    by_cases hterm : len ≤ fifo + 1
    · by_cases h1 : len = 1
      · subst h1
        refine ⟨[nackReadCmd, stopCmd, endCmd], [1], [], ?_, by simp, ?_, by simp, by simp⟩
        · simp [readLoopAux, readChunkCmds_one fifo hf, htr i, readLoopAux_len_zero]
        · simp [readCmds, nackReadCmd, stopCmd, endCmd, List.filter,
            beq_read_read, beq_stop_read, beq_end_read]
      · refine ⟨[bulkReadCmd (len - 1), nackReadCmd, stopCmd, endCmd], [len],
          [bulkReadCmd (len - 1)], ?_, by simp, ?_, ?_, ?_⟩
        · simp [readLoopAux, hlz, readChunkCmds_last fifo len (by omega) hterm, htr i,
            readLoopAux_len_zero]
        · simp [readCmds, bulkReadCmd, nackReadCmd, stopCmd, endCmd, List.filter,
            beq_read_read, beq_stop_read, beq_end_read]
        · intro c hc
          simp at hc
          subst hc
          simp [bulkReadCmd]
        · simp [bulkReadCmd]
          omega
    · obtain ⟨cs', rds', pre', heq, hsum, hfilt, hpre, hbytes⟩ :=
        ih (len - fifo) (bo + fifo) (i + 1) (by omega) (by omega)
      refine ⟨bulkReadCmd fifo :: endCmd :: cs', fifo :: rds', bulkReadCmd fifo :: pre',
        ?_, ?_, ?_, ?_, ?_⟩
      · simp [readLoopAux, hlz, readChunkCmds_large fifo len hf (by omega), htr i, heq]
        omega
      · simp [hsum]
        omega
      · simp [readCmds, List.filter, bulkReadCmd, endCmd,
          beq_read_read, beq_stop_read, beq_end_read] at hfilt ⊢
        simp [hfilt, beq_end_read]
      · intro c hc
        rcases List.mem_cons.mp hc with hc1 | hc2
        · subst hc1
          simp [bulkReadCmd]
        · exact hpre c hc2
      · simp [bulkReadCmd]
        omega

theorem writeChunkCmds_last (fifo len : Nat) (stop : Bool) (h0 : 0 < len) (hle : len ≤ fifo) :
    writeChunkCmds fifo len stop =
      ([wrCmd len] ++ (if stop then [stopCmd] else [endCmd]), len, 0) := by
  have h1 : ¬ fifo < len := by omega
  have h2 : len - len = 0 := by omega
  simp [writeChunkCmds, h1, h2, h0, wrCmd, stopCmd, endCmd]

theorem writeChunkCmds_large (fifo len : Nat) (stop : Bool) (hf : 0 < fifo)
    (hlen : fifo < len) :
    writeChunkCmds fifo len stop = ([wrCmd fifo, endCmd], fifo, len - fifo) := by
  have h2 : ¬ (len - fifo = 0) := by omega
  simp [writeChunkCmds, hlen, h2, hf, wrCmd, endCmd]

theorem writeLoopAux_ok (fifo : Nat) (stop : Bool) (tr : Nat → Int) (hf : 0 < fifo)
    (htr : ∀ j, ¬ tr j < 0) :
    ∀ fuel len bo i, 0 < len → len ≤ fuel →
      ∃ cs ps, writeLoopAux fifo stop tr fuel len bo i = (cs, ps, 0, 0, bo + len) ∧
        ps.sum = len := by
  intro fuel
  induction fuel with
  | zero => intro len bo i h0 hle; omega
  | succ fuel ih =>
    intro len bo i h0 hle
    by_cases hterm : len ≤ fifo
    · refine ⟨[wrCmd len] ++ (if stop then [stopCmd] else [endCmd]), [len], ?_, by simp⟩
      simp [writeLoopAux, writeChunkCmds_last fifo len stop h0 hterm, htr i, h0]
    · obtain ⟨cs', ps', heq, hsum⟩ := ih (len - fifo) (bo + fifo) (i + 1) (by omega) (by omega)
      refine ⟨wrCmd fifo :: endCmd :: cs', fifo :: ps', ?_, ?_⟩
      · have h2 : ¬ (len - fifo = 0) := by omega
        simp [writeLoopAux, writeChunkCmds_large fifo len stop hf (by omega), htr i, hf, h2, heq]
        omega
      · simp [hsum]
        omega

theorem readCmds_write_addr (tenBit : Bool) :
    readCmds (i2c_esp32_write_addr tenBit) = [] := by
  simp [readCmds, i2c_esp32_write_addr, List.filter, beq_rstart_read, beq_write_read]

theorem read_msg_ok (fifo : Nat) (tenBit : Bool) (flags : MsgFlags) (len : Nat)
    (tr : Nat → Int) (hf : 0 < fifo) (h0 : 0 < len) (htr : ∀ j, ¬ tr j < 0) :
    ∃ pre,
      (i2c_esp32_read_msg fifo tenBit flags len tr).ret = 0 ∧
      (i2c_esp32_read_msg fifo tenBit flags len tr).msgLen = 0 ∧
      (i2c_esp32_read_msg fifo tenBit flags len tr).bufOff = len ∧
      (i2c_esp32_read_msg fifo tenBit flags len tr).xfers.sum = len ∧
      readCmds (i2c_esp32_read_msg fifo tenBit flags len tr).cmds = pre ++ [nackReadCmd] ∧
      (∀ c ∈ pre, c.ack_en = false ∧ c.ack_val = 0) ∧
      (pre.map HwCmd.byte_num).sum + 1 = len := by
  obtain ⟨cs, rds, pre, heq, hsum, hfilt, hpre, hbytes⟩ :=
    readLoopAux_ok fifo tr hf htr len len 0 0 h0 le_rfl
  have haddr : List.filter (fun c => c.op_code == OpCode.READ)
      (if flags.restart then i2c_esp32_write_addr tenBit else []) = [] := by
    cases flags.restart
    · simp
    · simpa [readCmds] using readCmds_write_addr tenBit
  refine ⟨pre, ?_, ?_, ?_, ?_, ?_, hpre, hbytes⟩
  · simp [i2c_esp32_read_msg, heq]
  · simp [i2c_esp32_read_msg, heq]
  · simp [i2c_esp32_read_msg, heq]
  · simp [i2c_esp32_read_msg, heq, hsum]
  · simp only [i2c_esp32_read_msg, heq]
    rw [readCmds, List.filter_append, haddr]
    simpa [readCmds] using hfilt

theorem write_msg_ok (fifo : Nat) (tenBit : Bool) (flags : MsgFlags) (len : Nat)
    (tr : Nat → Int) (hf : 0 < fifo) (h0 : 0 < len) (htr : ∀ j, ¬ tr j < 0) :
    (i2c_esp32_write_msg fifo tenBit flags len tr).ret = 0 ∧
    (i2c_esp32_write_msg fifo tenBit flags len tr).msgLen = 0 ∧
    (i2c_esp32_write_msg fifo tenBit flags len tr).bufOff = len ∧
    (i2c_esp32_write_msg fifo tenBit flags len tr).xfers.sum = len := by
  obtain ⟨cs, ps, heq, hsum⟩ :=
    writeLoopAux_ok fifo flags.stop tr hf htr (len + 1) len 0 0 h0 (by omega)
  refine ⟨?_, ?_, ?_, ?_⟩ <;> simp [i2c_esp32_write_msg, heq, hsum]

theorem violates_setRestart (f : MsgFlags) (rest : List MsgFlags) :
    violatesSeqRules (setRestart f :: rest) = violatesSeqRules (f :: rest) := by
  cases rest <;> simp [violatesSeqRules, setRestart]

theorem validate_violation : ∀ fs, violatesSeqRules fs = true →
    i2c_esp32_validate fs = (-EINVAL, fs) := by
  intro fs
  induction fs with
  | nil => simp [violatesSeqRules]
  | cons f rest ih =>
    cases rest with
    | nil => simp [violatesSeqRules]
    | cons g rest' =>
      intro hv
      by_cases h1 : f.read ≠ g.read ∧ g.restart = false
      · simp [i2c_esp32_validate, h1]
      · by_cases h2 : f.stop
        · simp [i2c_esp32_validate, h1, h2]
        · have hv' : violatesSeqRules (g :: rest') = true := by
            simp [violatesSeqRules, h1, h2] at hv
            exact hv
          simp [i2c_esp32_validate, h1, h2, ih hv']

theorem validate_ok : ∀ (fs : List MsgFlags) (f : MsgFlags),
    violatesSeqRules (f :: fs) = false →
    ∃ pre lastf, f :: fs = pre ++ [lastf] ∧
      i2c_esp32_validate (f :: fs) = (0, pre ++ [setStop lastf]) := by
  intro fs
  induction fs with
  | nil =>
    intro f _
    exact ⟨[], f, rfl, by simp [i2c_esp32_validate]⟩
  | cons g rest' ih =>
    intro f hv
    simp only [violatesSeqRules, Bool.or_eq_false_iff, decide_eq_false_iff_not,
      not_and, Bool.not_eq_false] at hv
    obtain ⟨⟨h1, h2⟩, h3⟩ := hv
    obtain ⟨pre', lastf, hdecomp, hval⟩ := ih g h3
    refine ⟨f :: pre', lastf, ?_, ?_⟩
    · simp [hdecomp]
    · have h1' : ¬ (f.read ≠ g.read ∧ g.restart = false) := by
        intro hcon
        have hb : (decide (f.read ≠ g.read) && !g.restart) = true := by
          simp [hcon.1, hcon.2]
        rw [h1] at hb
        exact Bool.noConfusion hb
      have h2' : ¬ f.stop = true := by simp [h2]
      simp [i2c_esp32_validate, h1', h2', hval]

/-- C1: for every read message of length `len ≥ 1` (any flags, any FIFO
depth ≥ 1, every transmit succeeding — the condition under which
`i2c_esp32_read_msg` returns success), the READ commands queued by the
read path are a prefix of bulk commands with `ack_en = false` and
`ack_val = 0`, followed by exactly one dedicated command `nackReadCmd`
with `ack_en = false`, `ack_val = 1` and `byte_num = 1`.  It is the
last READ command and the prefix accounts for exactly the first
`len - 1` bytes, so the dedicated single-byte NACK command transfers
the final byte of the message and no other. -/
theorem read_final_byte_nack (fifo len : Nat) (tenBit : Bool) (flags : MsgFlags)
    (tr : Nat → Int) (hf : 0 < fifo) (hl : 1 ≤ len) (htr : ∀ j, ¬ tr j < 0) :
    ∃ pre,
      readCmds (i2c_esp32_read_msg fifo tenBit flags len tr).cmds = pre ++ [nackReadCmd] ∧
      nackReadCmd.ack_en = false ∧ nackReadCmd.ack_val = 1 ∧ nackReadCmd.byte_num = 1 ∧
      (∀ c ∈ pre, c.ack_en = false ∧ c.ack_val = 0) ∧
      (pre.map HwCmd.byte_num).sum = len - 1 := by
  obtain ⟨pre, _, _, _, _, hfilt, hpre, hbytes⟩ :=
    read_msg_ok fifo tenBit flags len tr hf hl htr
  exact ⟨pre, hfilt, rfl, rfl, rfl, hpre, by omega⟩

/-- Witness for C1 at FIFO depth 32 and a 2-byte read message. -/
theorem read_final_byte_nack_witness :
    ∃ pre,
      readCmds (i2c_esp32_read_msg 32 false ⟨true, true, false⟩ 2 trOk).cmds =
        pre ++ [nackReadCmd] ∧
      nackReadCmd.ack_en = false ∧ nackReadCmd.ack_val = 1 ∧ nackReadCmd.byte_num = 1 ∧
      (∀ c ∈ pre, c.ack_en = false ∧ c.ack_val = 0) ∧
      (pre.map HwCmd.byte_num).sum = 2 - 1 :=
  read_final_byte_nack 32 2 false ⟨true, true, false⟩ trOk (by decide) (by decide)
    (fun j => by norm_num [trOk])

/-- C2: for any message longer than the FIFO depth whose transmits all
succeed (the condition under which the segment drivers return success),
the per-chunk byte counts moved through the FIFO sum to the original
message length on both the read path and the write path, the final
`msg->len` is 0 and `msg->buf` has advanced by the original length. -/
theorem chunked_transfer_totals (fifo len : Nat) (tenBit : Bool) (rflags wflags : MsgFlags)
    (tr : Nat → Int) (hf : 0 < fifo) (hlen : fifo < len) (htr : ∀ j, ¬ tr j < 0) :
    (i2c_esp32_read_msg fifo tenBit rflags len tr).ret = 0 ∧
    (i2c_esp32_read_msg fifo tenBit rflags len tr).xfers.sum = len ∧
    (i2c_esp32_read_msg fifo tenBit rflags len tr).msgLen = 0 ∧
    (i2c_esp32_read_msg fifo tenBit rflags len tr).bufOff = len ∧
    (i2c_esp32_write_msg fifo tenBit wflags len tr).ret = 0 ∧
    (i2c_esp32_write_msg fifo tenBit wflags len tr).xfers.sum = len ∧
    (i2c_esp32_write_msg fifo tenBit wflags len tr).msgLen = 0 ∧
    (i2c_esp32_write_msg fifo tenBit wflags len tr).bufOff = len := by
  obtain ⟨pre, hr1, hr2, hr3, hr4, _, _, _⟩ :=
    read_msg_ok fifo tenBit rflags len tr hf (by omega) htr
  obtain ⟨hw1, hw2, hw3, hw4⟩ := write_msg_ok fifo tenBit wflags len tr hf (by omega) htr
  exact ⟨hr1, hr4, hr2, hr3, hw1, hw4, hw2, hw3⟩

/-- Witness for C2 at FIFO depth 2 and a 5-byte message. -/
theorem chunked_transfer_totals_witness :
    (i2c_esp32_read_msg 2 false ⟨true, true, false⟩ 5 trOk).ret = 0 ∧
    (i2c_esp32_read_msg 2 false ⟨true, true, false⟩ 5 trOk).xfers.sum = 5 ∧
    (i2c_esp32_read_msg 2 false ⟨true, true, false⟩ 5 trOk).msgLen = 0 ∧
    (i2c_esp32_read_msg 2 false ⟨true, true, false⟩ 5 trOk).bufOff = 5 ∧
    (i2c_esp32_write_msg 2 false ⟨false, true, false⟩ 5 trOk).ret = 0 ∧
    (i2c_esp32_write_msg 2 false ⟨false, true, false⟩ 5 trOk).xfers.sum = 5 ∧
    (i2c_esp32_write_msg 2 false ⟨false, true, false⟩ 5 trOk).msgLen = 0 ∧
    (i2c_esp32_write_msg 2 false ⟨false, true, false⟩ 5 trOk).bufOff = 5 :=
  chunked_transfer_totals 2 5 false ⟨true, true, false⟩ ⟨false, true, false⟩ trOk
    (by decide) (by decide) (fun j => by norm_num [trOk])

/-- C3 counterexample: the claim that a rejected message list is left
completely unchanged is false.  For the invalid two-write list whose
first message carries STOP, `i2c_esp32_transfer` does return `-EINVAL`
with no lock/hardware events, but the first message's flags have been
mutated (`I2C_MSG_RESTART` was set before validation ran). -/
theorem transfer_invalid_mutates_first_flags :
    (i2c_esp32_transfer segOk noReset
        [⟨false, true, false⟩, ⟨false, false, false⟩]).ret = -EINVAL ∧
    (i2c_esp32_transfer segOk noReset
        [⟨false, true, false⟩, ⟨false, false, false⟩]).events = [] ∧
    (i2c_esp32_transfer segOk noReset
        [⟨false, true, false⟩, ⟨false, false, false⟩]).msgs ≠
      [⟨false, true, false⟩, ⟨false, false, false⟩] := by decide

/-- C3 (amended): every message list violating the validation rules is
rejected with `-EINVAL` before the transaction lock is taken and before
any hardware access (empty event trace), and the caller's message list
is unchanged EXCEPT that the first message's `I2C_MSG_RESTART` flag has
been set (the driver sets it unconditionally before validating). -/
theorem transfer_invalid_rejected_amended (segRet : Nat → Int) (needReset : Nat → Bool)
    (f : MsgFlags) (rest : List MsgFlags)
    (hv : violatesSeqRules (f :: rest) = true) :
    i2c_esp32_transfer segRet needReset (f :: rest) =
      ⟨-EINVAL, setRestart f :: rest, []⟩ := by
  have hv' : violatesSeqRules (setRestart f :: rest) = true := by
    rw [violates_setRestart]
    exact hv
  have hval := validate_violation (setRestart f :: rest) hv'
  have hneg : (-EINVAL : Int) < 0 := by norm_num [EINVAL]
  simp [i2c_esp32_transfer, hval, hneg]

/-- Witness for the amended C3 at the invalid list of the
counterexample. -/
theorem transfer_invalid_rejected_amended_witness :
    i2c_esp32_transfer segOk noReset [⟨false, true, false⟩, ⟨false, false, false⟩] =
      ⟨-EINVAL, setRestart ⟨false, true, false⟩ :: [⟨false, false, false⟩], []⟩ :=
  transfer_invalid_rejected_amended segOk noReset ⟨false, true, false⟩
    [⟨false, false, false⟩] (by decide)

/-- C4 (code bug evaluation): a read message that does NOT carry
`I2C_MSG_STOP` still gets a STOP command queued right after the NACK'd
final byte (followed by the END command) — the read path of
`i2c_esp32_read_msg` never consults the STOP flag, so no
END-instead-of-STOP behaviour exists. -/
theorem read_msg_stop_unconditional :
    (i2c_esp32_read_msg 32 false ⟨true, false, false⟩ 1 trOk).cmds =
      [nackReadCmd, stopCmd, endCmd] := by decide

/-- C5: `i2c_esp32_transmit` returns `-ETIMEDOUT` with an FSM reset
when the semaphore take times out (deadline 500 ms) and when the
signalled status is `I2C_STATUS_TIMEOUT`; returns `-EFAULT` without
reset on `I2C_STATUS_ACK_ERROR`; returns 0 without reset otherwise. -/
theorem transmit_error_semantics (st : I2cStatus) :
    i2c_esp32_transmit .timeout st = (-ETIMEDOUT, true) ∧
    i2c_esp32_transmit .ok .TIMEOUT = (-ETIMEDOUT, true) ∧
    i2c_esp32_transmit .ok .ACK_ERROR = (-EFAULT, false) ∧
    (st ≠ .TIMEOUT → st ≠ .ACK_ERROR → i2c_esp32_transmit .ok st = (0, false)) ∧
    I2C_TRANSFER_TIMEOUT_MSEC = 500 := by
  cases st <;> decide

/-- Witness for C5 at the `DONE` status. -/
theorem transmit_error_semantics_witness :
    i2c_esp32_transmit .ok .DONE = (0, false) :=
  (transmit_error_semantics .DONE).2.2.2.1 (by decide) (by decide)

/-- C6: the interrupt handler maps NACK to `ACK_ERROR`, bus timeout and
arbitration loss to `TIMEOUT`, transfer-complete to `DONE`, leaves the
status unchanged on any other event (and whenever the status is neither
`WRITE` nor `READ`), and in every case gives the wait semaphore exactly
once. -/
theorem isr_event_mapping (st : I2cStatus) (e : I2cIntrEvent) :
    (i2c_esp32_isr st e).2 = 1 ∧
    ((st = .WRITE ∨ st = .READ) →
      ((e = .NACK → (i2c_esp32_isr st e).1 = .ACK_ERROR) ∧
       (e = .TOUT → (i2c_esp32_isr st e).1 = .TIMEOUT) ∧
       (e = .ARBIT_LOST → (i2c_esp32_isr st e).1 = .TIMEOUT) ∧
       (e = .TRANS_DONE → (i2c_esp32_isr st e).1 = .DONE) ∧
       (e ≠ .NACK → e ≠ .TOUT → e ≠ .ARBIT_LOST → e ≠ .TRANS_DONE →
         (i2c_esp32_isr st e).1 = st))) ∧
    (st ≠ .WRITE → st ≠ .READ → (i2c_esp32_isr st e).1 = st) := by
  cases st <;> cases e <;> decide

/-- Witness for C6 at a NACK event during a write. -/
theorem isr_event_mapping_witness :
    (i2c_esp32_isr .WRITE .NACK).1 = I2cStatus.ACK_ERROR ∧
    (i2c_esp32_isr .WRITE .NACK).2 = 1 :=
  ⟨((isr_event_mapping .WRITE .NACK).2.1 (Or.inl rfl)).1 rfl,
   (isr_event_mapping .WRITE .NACK).1⟩

/-- C7 (code bug evaluation): for a read message of length
`SOC_I2C_FIFO_LEN + 1 = 33` the single chunk iteration drains
`rd_filled = 33` bytes from the receive FIFO — strictly more than the
FIFO capacity of 32 — because the dedicated NACK'd final byte is
appended to a chunk that already fills the whole FIFO. -/
theorem read_msg_rxfifo_overflow :
    (i2c_esp32_read_msg 32 false ⟨true, true, false⟩ 33 trOk).xfers = [33] ∧
    ¬ (33 ≤ 32) := by decide

/-- C8: every message list accepted by validation leaves the driver
with `I2C_MSG_RESTART` set on the first message and `I2C_MSG_STOP` set
on the last message (injected when absent), with the list length
preserved. -/
theorem transfer_flag_injection (segRet : Nat → Int) (needReset : Nat → Bool)
    (f : MsgFlags) (rest : List MsgFlags)
    (hv : violatesSeqRules (f :: rest) = false) :
    ((i2c_esp32_transfer segRet needReset (f :: rest)).msgs.head?).map MsgFlags.restart
        = some true ∧
    ((i2c_esp32_transfer segRet needReset (f :: rest)).msgs.getLast?).map MsgFlags.stop
        = some true ∧
    (i2c_esp32_transfer segRet needReset (f :: rest)).msgs.length = rest.length + 1 := by
  have hv' : violatesSeqRules (setRestart f :: rest) = false := by
    rw [violates_setRestart]
    exact hv
  obtain ⟨pre, lastf, hdecomp, hval⟩ := validate_ok rest (setRestart f) hv'
  rcases hseg : xferSegs segRet needReset (pre ++ [setStop lastf]) 0 with ⟨r2, evs⟩
  have hres : (i2c_esp32_transfer segRet needReset (f :: rest)).msgs
      = pre ++ [setStop lastf] := by
    simp [i2c_esp32_transfer, hval, hseg]
  have hlenp : rest.length = pre.length := by
    have hc := congrArg List.length hdecomp
    simp at hc
    omega
  refine ⟨?_, ?_, ?_⟩
  · rw [hres]
    cases pre with
    | nil =>
      simp at hdecomp
      obtain ⟨h1, h2⟩ := hdecomp
      simp [← h1, setStop, setRestart]
    | cons p pre' =>
      simp at hdecomp
      obtain ⟨h1, h2⟩ := hdecomp
      simp [← h1, setRestart]
  · rw [hres]
    simp [setStop]
  · rw [hres]
    simp [hlenp]

/-- Witness for C8 at a single write message with no flags: STOP and
RESTART are both injected. -/
theorem transfer_flag_injection_witness :
    ((i2c_esp32_transfer segOk noReset [⟨false, false, false⟩]).msgs.head?).map
        MsgFlags.restart = some true ∧
    ((i2c_esp32_transfer segOk noReset [⟨false, false, false⟩]).msgs.getLast?).map
        MsgFlags.stop = some true ∧
    (i2c_esp32_transfer segOk noReset [⟨false, false, false⟩]).msgs.length =
      List.length ([] : List MsgFlags) + 1 :=
  transfer_flag_injection segOk noReset ⟨false, false, false⟩ [] (by decide)

/-- C9 counterexample: at 40 kHz the code selects source 1 (APB, limit
4 MHz) although source 4 (REF_TICK, limit 50 kHz) also covers the
bitrate with a strictly smaller limit — so the selection is NOT the
slowest covering source; and at 5 MHz no source covers the bitrate yet
`i2c_esp32_configure` succeeds, returning 0 and passing the invalid
marker `I2C_SCLK_MAX` to the bus-timing setup instead of failing. -/
theorem clk_src_claim_cex :
    i2c_get_clk_src 40000 = 1 ∧
    40000 ≤ i2c_clk_alloc.getD 4 0 ∧
    i2c_clk_alloc.getD 4 0 < i2c_clk_alloc.getD 1 0 ∧
    i2c_get_clk_src 5000000 = I2C_SCLK_MAX ∧
    i2c_esp32_configure true 5000000 = (0, some I2C_SCLK_MAX) := by decide

/-- C9 (amended): `i2c_get_clk_src` returns the FIRST source in
`i2c_sclk_t` order whose limit covers the bitrate — the qualifying
source with the LARGEST limit, i.e. source 1 (APB) whenever the bitrate
is at most `I2C_CLK_LIMIT_APB` — and the invalid marker `I2C_SCLK_MAX`
otherwise; `i2c_esp32_configure` fails with `-ENOTSUP` exactly when
master mode is absent or the bitrate is 0, and does NOT fail when no
clock source covers the bitrate. -/
theorem clk_src_selection_amended (f : Nat) :
    i2c_get_clk_src f = (if f ≤ I2C_CLK_LIMIT_APB then 1 else I2C_SCLK_MAX) ∧
    i2c_esp32_configure true f =
      (if f = 0 then (-ENOTSUP, (none : Option Nat)) else (0, some (i2c_get_clk_src f))) ∧
    i2c_esp32_configure false f = (-ENOTSUP, none) := by
  have v1 : I2C_CLK_LIMIT_APB = 4000000 := by norm_num [I2C_CLK_LIMIT_APB]
  have hr : List.range' 1 (I2C_SCLK_MAX - 1) = [1, 2, 3, 4] := rfl
  refine ⟨?_, ?_, by simp [i2c_esp32_configure]⟩
  · rw [v1]
    have e1 : i2c_clk_alloc.getD 1 0 = 4000000 := by decide
    have e2 : i2c_clk_alloc.getD 2 0 = 2000000 := by decide
    have e3 : i2c_clk_alloc.getD 3 0 = 1000000 := by decide
    have e4 : i2c_clk_alloc.getD 4 0 = 50000 := by decide
    by_cases h : f ≤ 4000000
    · have hfind : List.find? (fun c => decide (f ≤ i2c_clk_alloc.getD c 0)) [1, 2, 3, 4]
          = some 1 := by
        apply List.find?_cons_of_pos
        simp only [e1, decide_eq_true_eq]
        exact h
      unfold i2c_get_clk_src
      rw [hr, hfind]
      simp [h]
    · have hnone : List.find? (fun c => decide (f ≤ i2c_clk_alloc.getD c 0)) [1, 2, 3, 4]
          = none := by
        apply List.find?_eq_none.mpr
        intro x hx
        fin_cases hx
        · simp only [e1, decide_eq_true_eq]
          omega
        · simp only [e2, decide_eq_true_eq]
          omega
        · simp only [e3, decide_eq_true_eq]
          omega
        · simp only [e4, decide_eq_true_eq]
          omega
      unfold i2c_get_clk_src
      rw [hr, hnone]
      simp [h]
  · by_cases h0 : f = 0 <;> simp [i2c_esp32_configure, h0]

/-- C10: `i2c_esp32_transfer` on an empty message list returns 0 at
once: no lock take, no validation mutation, no hardware event, and the
(empty) message list unchanged. -/
theorem transfer_empty_noop (segRet : Nat → Int) (needReset : Nat → Bool) :
    i2c_esp32_transfer segRet needReset [] = ⟨0, [], []⟩ := rfl
